import Mathlib

/-!
Verification of the KBFS block-ops pipeline and quota-reclamation engine.

The Go sources embedded here are the `libkbfs` package files holding
`BlockOpsStandard` (Get/Ready/Put/Delete), `runUnlessCanceled`,
`MakeRandomRequestID`, and the quota-reclamation tests.  Collaborator
interfaces (key manager, crypto, codec, block server) are not part of the
sampled sources; they are modelled as records of functions, and the
quota-reclamation engine itself (only its tests are in the sources) is
modelled from the specification.
-/

deriving instance DecidableEq for Except

namespace Libkbfs

/-- A block identifier.  The source computes it as a deterministic content
hash of the encoded ciphertext bytes; the model keeps the hashed content
itself so that the hash is deterministic and collision-free, as the spec
assumes of the content-addressing scheme. -/
structure BlockID where
  bytes : List Nat
deriving DecidableEq

/-- The zero value `BlockID{}` of Go. -/
def BlockID.zero : BlockID := ⟨[]⟩

/-- A block reference nonce, distinguishing multiple references to one
`BlockID`. -/
structure BlockRefNonce where
  val : Nat
deriving DecidableEq

/-- The distinguished zero nonce marking a primary (initial-Put) reference. -/
def zeroBlockRefNonce : BlockRefNonce := ⟨0⟩

/-- A top-level-folder identifier (`md.ID` in the source). -/
structure TlfID where
  val : Nat
deriving DecidableEq

/-- Folder metadata; the block-ops code reads only its folder ID. -/
structure RootMetadata where
  id : TlfID
deriving DecidableEq

/-- A pointer to a block: the fields the block-ops code reads. -/
structure BlockPointer where
  id : BlockID
  refNonce : BlockRefNonce
deriving DecidableEq

/-- Folder-wide symmetric key. -/
structure TLFCryptKey where
  val : Nat
deriving DecidableEq

/-- Per-block server-held key fragment. -/
structure BlockCryptKeyServerHalf where
  val : Nat
deriving DecidableEq

/-- Derived per-block cipher key. -/
structure BlockCryptKey where
  val : Nat
deriving DecidableEq

/-- A plaintext block. -/
structure Block where
  data : List Nat
deriving DecidableEq

/-- An encrypted block container. -/
structure EncryptedBlock where
  data : List Nat
deriving DecidableEq

/-- An error produced by a collaborator (key manager, crypto, codec, block
server, random source, context): opaque to the block-ops code, which only
propagates it. -/
structure ExtErr where
  code : Nat
deriving DecidableEq

/-- An error returned by `Ready`: either a propagated collaborator error or
the integrity-check error `TooLowByteCountError` that `Ready` itself
constructs. -/
inductive Err where
  | ext (e : ExtErr)
  | tooLowByteCount (expectedMinByteCount : Nat) (byteCount : Nat)
deriving DecidableEq

/-- Ciphertext bytes plus the per-block server half, as produced by
`Ready`. -/
structure ReadyBlockData where
  buf : List Nat
  serverHalf : BlockCryptKeyServerHalf
deriving DecidableEq

/-- The zero value `ReadyBlockData{}` of Go. -/
def ReadyBlockData.zero : ReadyBlockData := ⟨[], ⟨0⟩⟩

/-- Modelled from the spec: `GetEncodedSize` (defined outside the sampled
sources) returns the encoded (ciphertext) byte count of the buffer. -/
def ReadyBlockData.GetEncodedSize (r : ReadyBlockData) : Nat := r.buf.length

/-- A call issued to the block server, with its full argument list, as the
block-ops code issues it. -/
inductive StoreCall where
  | put (id : BlockID) (tlfID : TlfID) (context : BlockPointer)
      (buf : List Nat) (serverHalf : BlockCryptKeyServerHalf)
  | addBlockReference (id : BlockID) (tlfID : TlfID) (context : BlockPointer)
  | removeBlockReference (id : BlockID) (tlfID : TlfID) (context : BlockPointer)
deriving DecidableEq

/-- The pipeline steps `Get` performs, in order, recorded as a trace. -/
inductive GetStep where
  | storeGet
  | keyFetch
  | unmask
  | decode
  | decrypt
deriving DecidableEq

/-- Modelled from the spec: the key-manager collaborator interface
(`GetTLFCryptKeyForEncryption`, `GetTLFCryptKeyForBlockDecryption`),
whose implementation is outside the sampled sources. -/
structure KeyManagerModel where
  getTLFCryptKeyForEncryption : RootMetadata → Except ExtErr TLFCryptKey
  getTLFCryptKeyForBlockDecryption :
    RootMetadata → BlockPointer → Except ExtErr TLFCryptKey

/-- Modelled from the spec: the crypto collaborator interface used by the
block-ops code; its implementation is outside the sampled sources.  The
random server-half generator is modelled as the outcome of the one random
draw the `Ready` call makes. -/
structure CryptoModel where
  makeRandomBlockCryptKeyServerHalf : Except ExtErr BlockCryptKeyServerHalf
  unmaskBlockCryptKey :
    BlockCryptKeyServerHalf → TLFCryptKey → Except ExtErr BlockCryptKey
  encryptBlock : Block → BlockCryptKey → Except ExtErr (Nat × EncryptedBlock)
  decryptBlock : EncryptedBlock → BlockCryptKey → Except ExtErr Block
  makePermanentBlockID : List Nat → Except ExtErr BlockID

/-- Modelled from the spec: the codec collaborator interface. -/
structure CodecModel where
  encode : EncryptedBlock → Except ExtErr (List Nat)
  decode : List Nat → Except ExtErr EncryptedBlock

/-- Modelled from the spec: the block-server collaborator interface
consumed by the block-ops code: `Get` and the mutating calls. -/
structure BlockServerModel where
  get : BlockID → BlockPointer →
    Except ExtErr (List Nat × BlockCryptKeyServerHalf)
  handle : StoreCall → Except ExtErr Unit

/-- The configuration injected into `BlockOpsStandard`, restricted to the
collaborators its methods use. -/
structure Config where
  keyManager : KeyManagerModel
  crypto : CryptoModel
  codec : CodecModel
  blockServer : BlockServerModel

/-- The four named return values of Go's `Ready`, plus the trace of block
server calls the method issued (the `Ready` body issues none). -/
structure ReadyResult where
  id : BlockID
  plainSize : Nat
  readyBlockData : ReadyBlockData
  err : Option Err
  storeCalls : List StoreCall
deriving DecidableEq

namespace BlockOpsStandard

/-- The body of `BlockOpsStandard.Ready` without its deferred cleanup:
each early `return` leaves the named results with the values assigned so
far (Go zero values for the not-yet-assigned ones). -/
def ReadyNoDefer (cfg : Config) (md : RootMetadata) (block : Block) :
    ReadyResult :=
  match cfg.keyManager.getTLFCryptKeyForEncryption md with
  | .error e =>
    { id := BlockID.zero, plainSize := 0, readyBlockData := ReadyBlockData.zero,
      err := some (.ext e), storeCalls := [] }
  | .ok tlfCryptKey =>
    match cfg.crypto.makeRandomBlockCryptKeyServerHalf with
    | .error e =>
      { id := BlockID.zero, plainSize := 0,
        readyBlockData := ReadyBlockData.zero,
        err := some (.ext e), storeCalls := [] }
    | .ok serverHalf =>
      match cfg.crypto.unmaskBlockCryptKey serverHalf tlfCryptKey with
      | .error e =>
        { id := BlockID.zero, plainSize := 0,
          readyBlockData := ReadyBlockData.zero,
          err := some (.ext e), storeCalls := [] }
      | .ok blockKey =>
        match cfg.crypto.encryptBlock block blockKey with
        | .error e =>
          { id := BlockID.zero, plainSize := 0,
            readyBlockData := ReadyBlockData.zero,
            err := some (.ext e), storeCalls := [] }
        | .ok (plainSize, encryptedBlock) =>
          match cfg.codec.encode encryptedBlock with
          | .error e =>
            { id := BlockID.zero, plainSize := plainSize,
              readyBlockData := ReadyBlockData.zero,
              err := some (.ext e), storeCalls := [] }
          | .ok buf =>
            let readyBlockData : ReadyBlockData :=
              { buf := buf, serverHalf := serverHalf }
            let encodedSize := readyBlockData.GetEncodedSize
            if encodedSize < plainSize then
              { id := BlockID.zero, plainSize := plainSize,
                readyBlockData := readyBlockData,
                err := some (.tooLowByteCount plainSize encodedSize),
                storeCalls := [] }
            else
              match cfg.crypto.makePermanentBlockID buf with
              | .error e =>
                { id := BlockID.zero, plainSize := plainSize,
                  readyBlockData := readyBlockData,
                  err := some (.ext e), storeCalls := [] }
              | .ok id =>
                { id := id, plainSize := plainSize,
                  readyBlockData := readyBlockData,
                  err := none, storeCalls := [] }

/-- `BlockOpsStandard.Ready`: the body followed by the deferred cleanup
that resets all outputs to their zero values whenever an error is
returned. -/
def Ready (cfg : Config) (md : RootMetadata) (block : Block) : ReadyResult :=
  let r := ReadyNoDefer cfg md block
  match r.err with
  | some e =>
    { id := BlockID.zero, plainSize := 0, readyBlockData := ReadyBlockData.zero,
      err := some e, storeCalls := r.storeCalls }
  | none => r

/-- `BlockOpsStandard.Get`: fetch from the block server keyed by the
pointer's ID, fetch the folder decryption key, unmask the block key,
decode, then decrypt.  Returns the trace of pipeline steps reached
together with the decrypted block or the first error. -/
def Get (cfg : Config) (md : RootMetadata) (blockPtr : BlockPointer) :
    List GetStep × Except ExtErr Block :=
  match cfg.blockServer.get blockPtr.id blockPtr with
  | .error e => ([.storeGet], .error e)
  | .ok (buf, blockServerHalf) =>
    match cfg.keyManager.getTLFCryptKeyForBlockDecryption md blockPtr with
    | .error e => ([.storeGet, .keyFetch], .error e)
    | .ok tlfCryptKey =>
      match cfg.crypto.unmaskBlockCryptKey blockServerHalf tlfCryptKey with
      | .error e => ([.storeGet, .keyFetch, .unmask], .error e)
      | .ok blockCryptKey =>
        match cfg.codec.decode buf with
        | .error e => ([.storeGet, .keyFetch, .unmask, .decode], .error e)
        | .ok encryptedBlock =>
          ([.storeGet, .keyFetch, .unmask, .decode, .decrypt],
            cfg.crypto.decryptBlock encryptedBlock blockCryptKey)

/-- `BlockOpsStandard.Put`: a zero `RefNonce` issues the primary store
create (`bserv.Put`) with the payload and server half; a non-zero nonce
issues `AddBlockReference` instead.  Returns the issued call trace and the
server's response. -/
def Put (cfg : Config) (md : RootMetadata) (blockPtr : BlockPointer)
    (readyBlockData : ReadyBlockData) : List StoreCall × Except ExtErr Unit :=
  if blockPtr.refNonce = zeroBlockRefNonce then
    let c := StoreCall.put blockPtr.id md.id blockPtr readyBlockData.buf
      readyBlockData.serverHalf
    ([c], cfg.blockServer.handle c)
  else
    let c := StoreCall.addBlockReference blockPtr.id md.id blockPtr
    ([c], cfg.blockServer.handle c)

/-- `BlockOpsStandard.Delete`: issues a single `RemoveBlockReference`. -/
def Delete (cfg : Config) (md : RootMetadata) (id : BlockID)
    (context : BlockPointer) : List StoreCall × Except ExtErr Unit :=
  let c := StoreCall.removeBlockReference id md.id context
  ([c], cfg.blockServer.handle c)

end BlockOpsStandard

/-- Which `select` case fires in `runUnlessCanceled`: either the context's
done channel fires while `fn` has not yet completed (Go's context contract
guarantees `ctx.Err()` is then non-nil, so the branch carries an error
value), or `fn` ran to completion and its result is delivered first. -/
inductive SelectOutcome where
  | ctxDoneFirst (ctxErr : ExtErr)
  | fnFirst (res : Option ExtErr)
deriving DecidableEq

/-- `runUnlessCanceled`: returns `ctx.Err()` when cancellation wins the
race, otherwise the completed `fn`'s result. -/
def runUnlessCanceled : SelectOutcome → Option ExtErr
  | .ctxDoneFirst e => some e
  | .fnFirst res => res

/-- The URL-safe base64 alphabet of `base64.URLEncoding` (RFC 4648 §5). -/
def base64URLAlphabetChars : List Char :=
  ['A', 'B', 'C', 'D', 'E', 'F', 'G', 'H', 'I', 'J', 'K', 'L', 'M',
   'N', 'O', 'P', 'Q', 'R', 'S', 'T', 'U', 'V', 'W', 'X', 'Y', 'Z',
   'a', 'b', 'c', 'd', 'e', 'f', 'g', 'h', 'i', 'j', 'k', 'l', 'm',
   'n', 'o', 'p', 'q', 'r', 's', 't', 'u', 'v', 'w', 'x', 'y', 'z',
   '0', '1', '2', '3', '4', '5', '6', '7', '8', '9', '-', '_']

/-- The alphabet character at a 6-bit index. -/
def b64Char (n : Nat) : Char := base64URLAlphabetChars.getD n 'A'

/-- `base64.URLEncoding.EncodeToString` (RFC 4648 §4 with the URL-safe
alphabet): three input bytes become four characters; one or two trailing
bytes are padded with `'='`. -/
def base64URLEncode : List Nat → List Char
  | [] => []
  | [b1] =>
    [b64Char (b1 / 4), b64Char (b1 % 4 * 16), '=', '=']
  | [b1, b2] =>
    [b64Char (b1 / 4), b64Char (b1 % 4 * 16 + b2 / 16),
     b64Char (b2 % 16 * 4), '=']
  | b1 :: b2 :: b3 :: rest =>
    b64Char (b1 / 4) :: b64Char (b1 % 4 * 16 + b2 / 16) ::
    b64Char (b2 % 16 * 4 + b3 / 64) :: b64Char (b3 % 64) ::
    base64URLEncode rest

/-- Whether a character list ends in the two characters "==". -/
def hasSuffixEqEq (l : List Char) : Bool :=
  match l.reverse with
  | '=' :: '=' :: _ => true
  | _ => false

/-- `strings.TrimSuffix(s, "==")`: drop the final two characters when the
string ends in "==", otherwise return it unchanged. -/
def trimSuffixEqEq (l : List Char) : List Char :=
  if hasSuffixEqEq l then (l.reverse.drop 2).reverse else l

/-- `MakeRandomRequestID`: reads 16 random bytes (`128/8`), and on success
returns their base64 URL encoding with the trailing "==" stripped; on
failure of the random source it returns the empty string and the error.
The random draw is modelled as the outcome of `cryptoRandRead` on the
16-byte buffer. -/
def MakeRandomRequestID (randRead : Except ExtErr (Fin 16 → Nat)) :
    String × Option ExtErr :=
  match randRead with
  | .error e => ("", some e)
  | .ok buf => (⟨trimSuffixEqEq (base64URLEncode (List.ofFn buf))⟩, none)

/-- The status of one block reference held by the block server. -/
inductive BlockRefLocalStatus where
  | liveBlockRef
  | archivedBlockRef
deriving DecidableEq

/-- The block server's reference map for one folder.  The source reads it
as `map[BlockID]map[BlockRefNonce]blockRefLocalStatus`; the model flattens
the two map levels into an association list keyed by the
(BlockID, BlockRefNonce) pair, which carries the same entries. -/
abbrev RefMap : Type :=
  List ((BlockID × BlockRefNonce) × BlockRefLocalStatus)

/-- `totalBlockRefs` from the quota-reclamation tests: the total number of
reference entries across all block IDs. -/
def totalBlockRefs (m : RefMap) : Nat := m.length

/-- The number of reference entries a map holds for one block ID. -/
def refsOf (id : BlockID) (m : RefMap) : Nat :=
  (m.filter fun e => e.1.1 = id).length

/-- Modelled from the spec: the local block server's reaction to one store
call (its implementation is outside the sampled sources) — a create or an
add-reference inserts a live reference entry for (id, nonce); a
remove-reference deletes that entry. -/
def bserverApply (m : RefMap) : StoreCall → RefMap
  | .put id _ context _ _ =>
    ((id, context.refNonce), BlockRefLocalStatus.liveBlockRef) :: m
  | .addBlockReference id _ context =>
    ((id, context.refNonce), BlockRefLocalStatus.liveBlockRef) :: m
  | .removeBlockReference id _ context =>
    m.filter fun e => e.1 ≠ (id, context.refNonce)

/-- Apply a sequence of store calls in order. -/
def bserverApplyAll (m : RefMap) (cs : List StoreCall) : RefMap :=
  cs.foldl bserverApply m

/-- A block pointer that a metadata revision newly unreferenced, annotated
with the revision's timestamp, as the reclamation scan collects them. -/
structure UnrefPointer where
  id : BlockID
  refNonce : BlockRefNonce
  unrefTime : Nat
deriving DecidableEq

/-- The per-folder state the reclamation engine acts on: the block
server's reference map and the unreferenced pointers of the revisions
after the committed watermark, in revision order. -/
structure QRState where
  store : RefMap
  pending : List UnrefPointer
deriving DecidableEq

/-- Modelled from the spec: the age filter — a pointer is eligible when
its unreferenced-since timestamp is at least `MinUnrefAge` older than the
current clock. -/
def eligiblePointers (minUnrefAge now : Nat) (ps : List UnrefPointer) :
    List UnrefPointer :=
  ps.filter fun p => p.unrefTime + minUnrefAge ≤ now

/-- Remove the reference entry for one (id, nonce) key from the map. -/
def removeRef (m : RefMap) (k : BlockID × BlockRefNonce) : RefMap :=
  m.filter fun e => e.1 ≠ k

/-- Modelled from the spec: one quota-reclamation run (the engine itself
is outside the sampled sources; only its tests are).  The run collects
the age-eligible pending pointers, takes at most the per-run threshold
`numPointersPerGCThreshold` of them, issues remove-reference calls for
that batch, and advances the watermark past the processed pointers. -/
def reclamationRun (minUnrefAge threshold now : Nat) (s : QRState) :
    QRState :=
  let batch := (eligiblePointers minUnrefAge now s.pending).take threshold
  { store := batch.foldl (fun m p => removeRef m (p.id, p.refNonce)) s.store
    pending := s.pending.filter fun p => p ∉ batch }

/-- The block server's reference map after two fresh writes: each write
issues its `Put` with a zero-nonce pointer (a primary store create), and
the server applies the issued calls in order to the prior map. -/
def twoWriteStore (cfg₁ cfg₂ : Config) (md : RootMetadata)
    (id₁ id₂ : BlockID) (rbd₁ rbd₂ : ReadyBlockData) (pre : RefMap) :
    RefMap :=
  bserverApplyAll pre
    ((BlockOpsStandard.Put cfg₁ md ⟨id₁, zeroBlockRefNonce⟩ rbd₁).1 ++
      (BlockOpsStandard.Put cfg₂ md ⟨id₂, zeroBlockRefNonce⟩ rbd₂).1)

/-- Sample folder metadata for concrete evaluations. -/
def mdSample : RootMetadata := ⟨⟨1⟩⟩

/-- Sample plaintext block for concrete evaluations. -/
def blockSample : Block := ⟨[1, 2, 3]⟩

/-- A key manager that always succeeds. -/
def kmOK : KeyManagerModel :=
  { getTLFCryptKeyForEncryption := fun _ => .ok ⟨7⟩
    getTLFCryptKeyForBlockDecryption := fun _ _ => .ok ⟨7⟩ }

/-- A key manager whose key fetches fail. -/
def kmFail : KeyManagerModel :=
  { getTLFCryptKeyForEncryption := fun _ => .error ⟨9⟩
    getTLFCryptKeyForBlockDecryption := fun _ _ => .error ⟨9⟩ }

/-- A concrete crypto model: unmasking pairs the server half with the
folder key injectively, encryption prepends the key to the plaintext, and
the permanent block ID is the (collision-free) content of the encoded
bytes. -/
def cryptoOK : CryptoModel :=
  { makeRandomBlockCryptKeyServerHalf := .ok ⟨3⟩
    unmaskBlockCryptKey := fun sh k => .ok ⟨sh.val * 1000 + k.val⟩
    encryptBlock := fun b k => .ok (b.data.length, ⟨k.val :: b.data⟩)
    decryptBlock := fun eb _ => .ok ⟨eb.data.drop 1⟩
    makePermanentBlockID := fun buf => .ok ⟨buf⟩ }

/-- A codec whose encoder emits the container bytes unchanged. -/
def codecOK : CodecModel :=
  { encode := fun eb => .ok eb.data
    decode := fun l => .ok ⟨l⟩ }

/-- A codec whose encoder emits no bytes at all, mocking a broken encoder
for the integrity check. -/
def codecShort : CodecModel :=
  { encode := fun _ => .ok []
    decode := fun l => .ok ⟨l⟩ }

/-- A block server that answers every call successfully. -/
def bserverOK : BlockServerModel :=
  { get := fun _ _ => .ok ([5, 6], ⟨3⟩)
    handle := fun _ => .ok () }

/-- A block server whose fetches fail (block absent). -/
def bserverAbsent : BlockServerModel :=
  { get := fun _ _ => .error ⟨4⟩
    handle := fun _ => .ok () }

/-- A fully successful configuration. -/
def cfgOK : Config := ⟨kmOK, cryptoOK, codecOK, bserverOK⟩

/-- A configuration whose encoder emits fewer bytes than the plaintext
size. -/
def cfgShort : Config := ⟨kmOK, cryptoOK, codecShort, bserverOK⟩

/-- A configuration whose key fetches fail. -/
def cfgKeyFail : Config := ⟨kmFail, cryptoOK, codecOK, bserverOK⟩

/-- A configuration whose block fetches fail. -/
def cfgAbsent : Config := ⟨kmOK, cryptoOK, codecOK, bserverAbsent⟩

/-- The successful configuration with the random draw replaced, as a
second device's independent draw. -/
def cfgOK2 : Config :=
  { cfgOK with crypto :=
    { cryptoOK with makeRandomBlockCryptKeyServerHalf := .ok ⟨4⟩ } }

/-- A folder state with two live reference entries and two unreferenced
pointers, both unreferenced at sample timestamps 10 and 12.  At a clock
before 10 + MinUnrefAge nothing is eligible; at a late clock both are. -/
def qrSample : QRState :=
  { store := [((⟨[1]⟩, ⟨0⟩), .liveBlockRef), ((⟨[2]⟩, ⟨0⟩), .liveBlockRef)]
    pending := [⟨⟨[1]⟩, ⟨0⟩, 10⟩, ⟨⟨[2]⟩, ⟨0⟩, 12⟩] }

/-- Inversion of a successful `Ready` body: every pipeline step succeeded,
in order, and the outputs are exactly the step results, with the block ID
computed from the encoded ciphertext bytes. -/
theorem readyNoDefer_err_none (cfg : Config) (md : RootMetadata)
    (block : Block)
    (he : (BlockOpsStandard.ReadyNoDefer cfg md block).err = none) :
    ∃ tlfKey sh bk ps eb buf id,
      cfg.keyManager.getTLFCryptKeyForEncryption md = .ok tlfKey ∧
      cfg.crypto.makeRandomBlockCryptKeyServerHalf = .ok sh ∧
      cfg.crypto.unmaskBlockCryptKey sh tlfKey = .ok bk ∧
      cfg.crypto.encryptBlock block bk = .ok (ps, eb) ∧
      cfg.codec.encode eb = .ok buf ∧
      ps ≤ buf.length ∧
      cfg.crypto.makePermanentBlockID buf = .ok id ∧
      BlockOpsStandard.ReadyNoDefer cfg md block =
        { id := id, plainSize := ps, readyBlockData := ⟨buf, sh⟩,
          err := none, storeCalls := [] } := by
  rcases hk : cfg.keyManager.getTLFCryptKeyForEncryption md with e | tlfKey
  · simp [BlockOpsStandard.ReadyNoDefer, hk] at he
  rcases hs : cfg.crypto.makeRandomBlockCryptKeyServerHalf with e | sh
  · simp [BlockOpsStandard.ReadyNoDefer, hk, hs] at he
  rcases hu : cfg.crypto.unmaskBlockCryptKey sh tlfKey with e | bk
  · simp [BlockOpsStandard.ReadyNoDefer, hk, hs, hu] at he
  rcases hc : cfg.crypto.encryptBlock block bk with e | pseb
  · simp [BlockOpsStandard.ReadyNoDefer, hk, hs, hu, hc] at he
  obtain ⟨ps, eb⟩ := pseb
  rcases hn : cfg.codec.encode eb with e | buf
  · simp [BlockOpsStandard.ReadyNoDefer, hk, hs, hu, hc, hn] at he
  by_cases hlt : buf.length < ps
  · simp [BlockOpsStandard.ReadyNoDefer, hk, hs, hu, hc, hn,
      ReadyBlockData.GetEncodedSize, hlt] at he
  rcases hid : cfg.crypto.makePermanentBlockID buf with e | id
  · simp [BlockOpsStandard.ReadyNoDefer, hk, hs, hu, hc, hn,
      ReadyBlockData.GetEncodedSize, hlt, hid] at he
  refine ⟨tlfKey, sh, bk, ps, eb, buf, id, rfl, rfl, hu, hc, hn,
    Nat.le_of_not_lt hlt, hid, ?_⟩
  simp [BlockOpsStandard.ReadyNoDefer, hk, hs, hu, hc, hn,
    ReadyBlockData.GetEncodedSize, hlt, hid]

/-- When the body returns no error, the deferred cleanup is a no-op. -/
theorem ready_eq_noDefer_of_err_none (cfg : Config) (md : RootMetadata)
    (block : Block)
    (he : (BlockOpsStandard.ReadyNoDefer cfg md block).err = none) :
    BlockOpsStandard.Ready cfg md block =
      BlockOpsStandard.ReadyNoDefer cfg md block := by
  simp [BlockOpsStandard.Ready, he]

/-- The deferred cleanup preserves the error value. -/
theorem ready_err_eq_noDefer_err (cfg : Config) (md : RootMetadata)
    (block : Block) :
    (BlockOpsStandard.Ready cfg md block).err =
      (BlockOpsStandard.ReadyNoDefer cfg md block).err := by
  unfold BlockOpsStandard.Ready
  cases he : (BlockOpsStandard.ReadyNoDefer cfg md block).err <;> simp [he]

/-- Inversion of a successful `Ready` call (body plus deferred cleanup). -/
theorem ready_ok_inversion (cfg : Config) (md : RootMetadata) (block : Block)
    (he : (BlockOpsStandard.Ready cfg md block).err = none) :
    ∃ tlfKey sh bk ps eb buf id,
      cfg.keyManager.getTLFCryptKeyForEncryption md = .ok tlfKey ∧
      cfg.crypto.makeRandomBlockCryptKeyServerHalf = .ok sh ∧
      cfg.crypto.unmaskBlockCryptKey sh tlfKey = .ok bk ∧
      cfg.crypto.encryptBlock block bk = .ok (ps, eb) ∧
      cfg.codec.encode eb = .ok buf ∧
      ps ≤ buf.length ∧
      cfg.crypto.makePermanentBlockID buf = .ok id ∧
      BlockOpsStandard.Ready cfg md block =
        { id := id, plainSize := ps, readyBlockData := ⟨buf, sh⟩,
          err := none, storeCalls := [] } := by
  rw [ready_err_eq_noDefer_err] at he
  obtain ⟨tlfKey, sh, bk, ps, eb, buf, id, h1, h2, h3, h4, h5, h6, h7, h8⟩ :=
    readyNoDefer_err_none cfg md block he
  exact ⟨tlfKey, sh, bk, ps, eb, buf, id, h1, h2, h3, h4, h5, h6, h7,
    by rw [ready_eq_noDefer_of_err_none cfg md block he, h8]⟩

/-- C1: when the pipeline reaches the integrity check with an encoded byte
count smaller than the recorded plaintext size, `Ready` fails with
`TooLowByteCountError` carrying the expected (plaintext) and actual
(encoded) counts; with an encoded count at least the plaintext size that
error is never raised; and `Ready` issues no block server call. -/
theorem ready_too_low_byte_count (cfg : Config) (md : RootMetadata)
    (block : Block) (tlfKey : TLFCryptKey) (sh : BlockCryptKeyServerHalf)
    (bk : BlockCryptKey) (ps : Nat) (eb : EncryptedBlock) (buf : List Nat)
    (h1 : cfg.keyManager.getTLFCryptKeyForEncryption md = .ok tlfKey)
    (h2 : cfg.crypto.makeRandomBlockCryptKeyServerHalf = .ok sh)
    (h3 : cfg.crypto.unmaskBlockCryptKey sh tlfKey = .ok bk)
    (h4 : cfg.crypto.encryptBlock block bk = .ok (ps, eb))
    (h5 : cfg.codec.encode eb = .ok buf) :
    (buf.length < ps →
      BlockOpsStandard.Ready cfg md block =
        { id := BlockID.zero, plainSize := 0,
          readyBlockData := ReadyBlockData.zero,
          err := some (.tooLowByteCount ps buf.length), storeCalls := [] }) ∧
    (ps ≤ buf.length →
      ∀ e a, (BlockOpsStandard.Ready cfg md block).err ≠
        some (.tooLowByteCount e a)) ∧
    (BlockOpsStandard.Ready cfg md block).storeCalls = [] := by
  refine ⟨fun hlt => ?_, fun hge e a => ?_, ?_⟩
  · simp [BlockOpsStandard.Ready, BlockOpsStandard.ReadyNoDefer,
      h1, h2, h3, h4, h5, ReadyBlockData.GetEncodedSize, hlt]
  · rw [ready_err_eq_noDefer_err]
    rcases hid : cfg.crypto.makePermanentBlockID buf with e' | id <;>
      simp [BlockOpsStandard.ReadyNoDefer, h1, h2, h3, h4, h5,
        ReadyBlockData.GetEncodedSize, Nat.not_lt.2 hge, hid]
  · rcases hid : cfg.crypto.makePermanentBlockID buf with e' | id <;>
      by_cases hlt : buf.length < ps <;>
      simp [BlockOpsStandard.Ready, BlockOpsStandard.ReadyNoDefer,
        h1, h2, h3, h4, h5, ReadyBlockData.GetEncodedSize, hid, hlt]

/-- Witness for C1: the mocked short encoder makes `Ready` fail with the
integrity-violation error and no store call. -/
theorem ready_too_low_byte_count_witness :
    BlockOpsStandard.Ready cfgShort mdSample blockSample =
      { id := BlockID.zero, plainSize := 0,
        readyBlockData := ReadyBlockData.zero,
        err := some (.tooLowByteCount 3 0), storeCalls := [] } ∧
    (BlockOpsStandard.Ready cfgShort mdSample blockSample).storeCalls = [] := by
  have h := ready_too_low_byte_count cfgShort mdSample blockSample
    ⟨7⟩ ⟨3⟩ ⟨3007⟩ 3 ⟨[3007, 1, 2, 3]⟩ [] rfl rfl rfl rfl rfl
  exact ⟨h.1 (by decide), h.2.2⟩

/-- C2: whenever `Ready` returns an error, all three outputs are the zero
values — no partial results accompany an error. -/
theorem ready_error_zeroes_outputs (cfg : Config) (md : RootMetadata)
    (block : Block) (e : Err)
    (h : (BlockOpsStandard.Ready cfg md block).err = some e) :
    (BlockOpsStandard.Ready cfg md block).id = BlockID.zero ∧
    (BlockOpsStandard.Ready cfg md block).plainSize = 0 ∧
    (BlockOpsStandard.Ready cfg md block).readyBlockData =
      ReadyBlockData.zero := by
  unfold BlockOpsStandard.Ready at h ⊢
  cases he : (BlockOpsStandard.ReadyNoDefer cfg md block).err <;>
    simp [he] at h ⊢

/-- Witness for C2: a failing key fetch yields an error with all-zero
outputs. -/
theorem ready_error_zeroes_outputs_witness :
    (BlockOpsStandard.Ready cfgKeyFail mdSample blockSample).err =
      some (.ext ⟨9⟩) ∧
    (BlockOpsStandard.Ready cfgKeyFail mdSample blockSample).id =
      BlockID.zero ∧
    (BlockOpsStandard.Ready cfgKeyFail mdSample blockSample).plainSize = 0 ∧
    (BlockOpsStandard.Ready cfgKeyFail mdSample blockSample).readyBlockData =
      ReadyBlockData.zero :=
  ⟨by decide,
    ready_error_zeroes_outputs cfgKeyFail mdSample blockSample
      (Err.ext ⟨9⟩) (by decide)⟩

/-- C3: a zero `RefNonce` makes `Put` issue exactly one store create
carrying the ID, folder, context, payload and server half; a non-zero
nonce makes it issue exactly one add-reference call, and no payload-
carrying call is issued. -/
theorem put_zero_nonce_creates_else_adds (cfg : Config) (md : RootMetadata)
    (blockPtr : BlockPointer) (rbd : ReadyBlockData) :
    (blockPtr.refNonce = zeroBlockRefNonce →
      (BlockOpsStandard.Put cfg md blockPtr rbd).1 =
        [StoreCall.put blockPtr.id md.id blockPtr rbd.buf rbd.serverHalf]) ∧
    (blockPtr.refNonce ≠ zeroBlockRefNonce →
      (BlockOpsStandard.Put cfg md blockPtr rbd).1 =
        [StoreCall.addBlockReference blockPtr.id md.id blockPtr] ∧
      ∀ i t c bf sh,
        StoreCall.put i t c bf sh ∉ (BlockOpsStandard.Put cfg md blockPtr rbd).1) := by
  constructor
  · intro h
    simp [BlockOpsStandard.Put, h]
  · intro h
    refine ⟨by simp [BlockOpsStandard.Put, h], fun i t c bf sh => ?_⟩
    simp [BlockOpsStandard.Put, h]

/-- Witness for C3 at concrete pointers with zero and non-zero nonces. -/
theorem put_zero_nonce_creates_else_adds_witness :
    (BlockOpsStandard.Put cfgOK mdSample ⟨⟨[1]⟩, ⟨0⟩⟩ ⟨[9], ⟨3⟩⟩).1 =
      [StoreCall.put ⟨[1]⟩ ⟨1⟩ ⟨⟨[1]⟩, ⟨0⟩⟩ [9] ⟨3⟩] ∧
    (BlockOpsStandard.Put cfgOK mdSample ⟨⟨[1]⟩, ⟨2⟩⟩ ⟨[9], ⟨3⟩⟩).1 =
      [StoreCall.addBlockReference ⟨[1]⟩ ⟨1⟩ ⟨⟨[1]⟩, ⟨2⟩⟩] :=
  ⟨(put_zero_nonce_creates_else_adds cfgOK mdSample ⟨⟨[1]⟩, ⟨0⟩⟩
      ⟨[9], ⟨3⟩⟩).1 (by decide),
    ((put_zero_nonce_creates_else_adds cfgOK mdSample ⟨⟨[1]⟩, ⟨2⟩⟩
      ⟨[9], ⟨3⟩⟩).2 (by decide)).1⟩

/-- C6: a successful `Ready` obtained the folder encryption key, drew a
fresh random server half, unmasked the block key from the two, encrypted
the block recording its plaintext size, encoded the encrypted block, and
returned as `BlockID` the deterministic content hash of the encoded
ciphertext bytes (not of the plaintext), with the ciphertext and server
half in the ready data. -/
theorem ready_success_pipeline (cfg : Config) (md : RootMetadata)
    (block : Block)
    (he : (BlockOpsStandard.Ready cfg md block).err = none) :
    ∃ tlfKey sh bk ps eb buf,
      cfg.keyManager.getTLFCryptKeyForEncryption md = .ok tlfKey ∧
      cfg.crypto.makeRandomBlockCryptKeyServerHalf = .ok sh ∧
      cfg.crypto.unmaskBlockCryptKey sh tlfKey = .ok bk ∧
      cfg.crypto.encryptBlock block bk = .ok (ps, eb) ∧
      cfg.codec.encode eb = .ok buf ∧
      cfg.crypto.makePermanentBlockID buf =
        .ok (BlockOpsStandard.Ready cfg md block).id ∧
      (BlockOpsStandard.Ready cfg md block).plainSize = ps ∧
      (BlockOpsStandard.Ready cfg md block).readyBlockData = ⟨buf, sh⟩ := by
  obtain ⟨tlfKey, sh, bk, ps, eb, buf, id, h1, h2, h3, h4, h5, h6, h7, h8⟩ :=
    ready_ok_inversion cfg md block he
  exact ⟨tlfKey, sh, bk, ps, eb, buf, h1, h2, h3, h4, h5,
    by rw [h8]; exact h7, by rw [h8], by rw [h8]⟩

/-- Witness for C6: the successful sample configuration, where the block
ID is the content of the encoded ciphertext bytes. -/
theorem ready_success_pipeline_witness :
    (BlockOpsStandard.Ready cfgOK mdSample blockSample).err = none ∧
    ∃ tlfKey sh bk ps eb buf,
      cfgOK.keyManager.getTLFCryptKeyForEncryption mdSample = .ok tlfKey ∧
      cfgOK.crypto.makeRandomBlockCryptKeyServerHalf = .ok sh ∧
      cfgOK.crypto.unmaskBlockCryptKey sh tlfKey = .ok bk ∧
      cfgOK.crypto.encryptBlock blockSample bk = .ok (ps, eb) ∧
      cfgOK.codec.encode eb = .ok buf ∧
      cfgOK.crypto.makePermanentBlockID buf =
        .ok (BlockOpsStandard.Ready cfgOK mdSample blockSample).id ∧
      (BlockOpsStandard.Ready cfgOK mdSample blockSample).plainSize = ps ∧
      (BlockOpsStandard.Ready cfgOK mdSample blockSample).readyBlockData =
        ⟨buf, sh⟩ :=
  ⟨by decide,
    ready_success_pipeline cfgOK mdSample blockSample (by decide)⟩

/-- C7: `Get` fetches from the store keyed by the pointer's block ID,
derives the block key, decodes and decrypts; each failure (absent block,
unavailable folder key, unmasking failure, undecodable or undecryptable
bytes) propagates as an error, and a failure before the decode step
leaves the decode and decrypt steps unattempted — a malformed block is
never turned into block data. -/
theorem get_pipeline_and_error_propagation (cfg : Config)
    (md : RootMetadata) (blockPtr : BlockPointer) :
    (∀ e, cfg.blockServer.get blockPtr.id blockPtr = .error e →
      BlockOpsStandard.Get cfg md blockPtr = ([.storeGet], .error e) ∧
      GetStep.decode ∉ (BlockOpsStandard.Get cfg md blockPtr).1 ∧
      GetStep.decrypt ∉ (BlockOpsStandard.Get cfg md blockPtr).1) ∧
    (∀ buf sh e,
      cfg.blockServer.get blockPtr.id blockPtr = .ok (buf, sh) →
      cfg.keyManager.getTLFCryptKeyForBlockDecryption md blockPtr =
        .error e →
      BlockOpsStandard.Get cfg md blockPtr =
        ([.storeGet, .keyFetch], .error e) ∧
      GetStep.decode ∉ (BlockOpsStandard.Get cfg md blockPtr).1 ∧
      GetStep.decrypt ∉ (BlockOpsStandard.Get cfg md blockPtr).1) ∧
    (∀ buf sh tlfKey e,
      cfg.blockServer.get blockPtr.id blockPtr = .ok (buf, sh) →
      cfg.keyManager.getTLFCryptKeyForBlockDecryption md blockPtr =
        .ok tlfKey →
      cfg.crypto.unmaskBlockCryptKey sh tlfKey = .error e →
      BlockOpsStandard.Get cfg md blockPtr =
        ([.storeGet, .keyFetch, .unmask], .error e)) ∧
    (∀ buf sh tlfKey bk e,
      cfg.blockServer.get blockPtr.id blockPtr = .ok (buf, sh) →
      cfg.keyManager.getTLFCryptKeyForBlockDecryption md blockPtr =
        .ok tlfKey →
      cfg.crypto.unmaskBlockCryptKey sh tlfKey = .ok bk →
      cfg.codec.decode buf = .error e →
      BlockOpsStandard.Get cfg md blockPtr =
        ([.storeGet, .keyFetch, .unmask, .decode], .error e)) ∧
    (∀ buf sh tlfKey bk eb,
      cfg.blockServer.get blockPtr.id blockPtr = .ok (buf, sh) →
      cfg.keyManager.getTLFCryptKeyForBlockDecryption md blockPtr =
        .ok tlfKey →
      cfg.crypto.unmaskBlockCryptKey sh tlfKey = .ok bk →
      cfg.codec.decode buf = .ok eb →
      BlockOpsStandard.Get cfg md blockPtr =
        ([.storeGet, .keyFetch, .unmask, .decode, .decrypt],
          cfg.crypto.decryptBlock eb bk)) := by
  refine ⟨fun e h1 => ?_, fun buf sh e h1 h2 => ?_,
    fun buf sh tlfKey e h1 h2 h3 => ?_,
    fun buf sh tlfKey bk e h1 h2 h3 h4 => ?_,
    fun buf sh tlfKey bk eb h1 h2 h3 h4 => ?_⟩ <;>
    simp [BlockOpsStandard.Get, h1]
  · simp [h2]
  · simp [h2, h3]
  · simp [h2, h3, h4]
  · simp [h2, h3, h4]

/-- Witness for C7: an absent block propagates the store error with no
decode or decrypt step, and a present block decrypts through the full
pipeline. -/
theorem get_pipeline_and_error_propagation_witness :
    BlockOpsStandard.Get cfgAbsent mdSample ⟨⟨[1]⟩, ⟨0⟩⟩ =
      ([.storeGet], .error ⟨4⟩) ∧
    BlockOpsStandard.Get cfgOK mdSample ⟨⟨[1]⟩, ⟨0⟩⟩ =
      ([.storeGet, .keyFetch, .unmask, .decode, .decrypt], .ok ⟨[6]⟩) := by
  refine ⟨((get_pipeline_and_error_propagation cfgAbsent mdSample
    ⟨⟨[1]⟩, ⟨0⟩⟩).1 ⟨4⟩ rfl).1, ?_⟩
  have h := (get_pipeline_and_error_propagation cfgOK mdSample
    ⟨⟨[1]⟩, ⟨0⟩⟩).2.2.2.2 [5, 6] ⟨3⟩ ⟨7⟩ ⟨3007⟩ ⟨[5, 6]⟩ rfl rfl rfl rfl
  rw [h]
  decide

/-- C9: `runUnlessCanceled` returns nil exactly when `fn` ran to
completion and returned nil; when cancellation wins the race it returns
the context's (non-nil) cancellation error, never nil and never `fn`'s
result. -/
theorem runUnlessCanceled_nil_iff_fn_completed :
    (∀ o, runUnlessCanceled o = none ↔ o = SelectOutcome.fnFirst none) ∧
    (∀ e, runUnlessCanceled (SelectOutcome.ctxDoneFirst e) = some e) := by
  constructor
  · intro o
    cases o <;> simp [runUnlessCanceled]
  · intro e
    rfl

/-- Witness for C9: a concrete cancellation error is returned verbatim,
and a completed successful run returns nil. -/
theorem runUnlessCanceled_nil_iff_fn_completed_witness :
    runUnlessCanceled (SelectOutcome.ctxDoneFirst ⟨7⟩) = some ⟨7⟩ ∧
    runUnlessCanceled (SelectOutcome.fnFirst none) = none :=
  ⟨runUnlessCanceled_nil_iff_fn_completed.2 ⟨7⟩,
    (runUnlessCanceled_nil_iff_fn_completed.1
      (SelectOutcome.fnFirst none)).2 rfl⟩

/-- Every 6-bit index (and out-of-range index, which hits the default)
maps into the URL-safe alphabet. -/
theorem b64Char_mem (n : Nat) : b64Char n ∈ base64URLAlphabetChars := by
  unfold b64Char
  rw [List.getD_eq_getElem?_getD]
  rcases h : base64URLAlphabetChars[n]? with _ | c
  · decide
  · simpa using List.getElem?_mem h

/-- The URL-safe alphabet contains no padding character. -/
theorem alphabet_no_pad : ∀ c ∈ base64URLAlphabetChars, c ≠ '=' := by
  decide

/-- No alphabet character is the padding character. -/
theorem b64Char_ne_pad (n : Nat) : b64Char n ≠ '=' :=
  alphabet_no_pad _ (b64Char_mem n)

/-- C10: a successful `MakeRandomRequestID` returns the base64 URL
encoding of the 16 random bytes with the trailing "==" padding stripped —
a 22-character string over the URL-safe alphabet containing no '=' — and
a failing random source yields the empty string together with the
error. -/
theorem makeRandomRequestID_format :
    (∀ e, MakeRandomRequestID (.error e) = ("", some e)) ∧
    (∀ buf : Fin 16 → Nat,
      (MakeRandomRequestID (.ok buf)).2 = none ∧
      (MakeRandomRequestID (.ok buf)).1.length = 22 ∧
      ∀ c ∈ (MakeRandomRequestID (.ok buf)).1.data,
        c ∈ base64URLAlphabetChars ∧ c ≠ '=') := by
  refine ⟨fun e => rfl, fun buf => ⟨rfl, ?_, ?_⟩⟩
  · show (trimSuffixEqEq (base64URLEncode (List.ofFn buf))).length = 22
    simp only [List.ofFn_succ, List.ofFn_zero, base64URLEncode]
    simp [trimSuffixEqEq, hasSuffixEqEq]
  · intro c hc
    have hc' : c ∈ trimSuffixEqEq (base64URLEncode (List.ofFn buf)) := hc
    simp only [List.ofFn_succ, List.ofFn_zero, base64URLEncode,
      trimSuffixEqEq, hasSuffixEqEq] at hc'
    simp at hc'
    rcases hc' with rfl | rfl | rfl | rfl | rfl | rfl | rfl | rfl | rfl |
      rfl | rfl | rfl | rfl | rfl | rfl | rfl | rfl | rfl | rfl | rfl |
      rfl | rfl <;>
      exact ⟨b64Char_mem _, b64Char_ne_pad _⟩

/-- Witness for C10: the all-zero draw gives a 22-character padding-free
ID, and a failing draw gives the empty string with the error. -/
theorem makeRandomRequestID_format_witness :
    MakeRandomRequestID (.error ⟨9⟩) = ("", some ⟨9⟩) ∧
    (MakeRandomRequestID (.ok fun _ => 0)).1.length = 22 ∧
    'A' ∈ base64URLAlphabetChars ∧ 'A' ≠ '=' :=
  ⟨makeRandomRequestID_format.1 ⟨9⟩,
    (makeRandomRequestID_format.2 fun _ => 0).2.1,
    (makeRandomRequestID_format.2 fun _ => 0).2.2 'A' (by decide)⟩

/-- Removing a reference never grows the map. -/
theorem removeRef_length_le (m : RefMap) (k : BlockID × BlockRefNonce) :
    (removeRef m k).length ≤ m.length :=
  List.length_filter_le _ m

/-- The map after a removal is a sublist of the map before. -/
theorem removeRef_sublist (m : RefMap) (k : BlockID × BlockRefNonce) :
    List.Sublist (removeRef m k) m :=
  List.filter_sublist m

/-- Key uniqueness survives a removal. -/
theorem removeRef_keysNodup (m : RefMap) (k : BlockID × BlockRefNonce)
    (h : (m.map Prod.fst).Nodup) : ((removeRef m k).map Prod.fst).Nodup :=
  h.sublist (List.Sublist.map Prod.fst (removeRef_sublist m k))

/-- Removal when the head entry carries the key. -/
theorem removeRef_cons_hit
    (e : (BlockID × BlockRefNonce) × BlockRefLocalStatus) (m : RefMap)
    (k : BlockID × BlockRefNonce) (hek : e.1 = k) :
    removeRef (e :: m) k = removeRef m k := by
  rw [removeRef, removeRef, List.filter_cons]
  simp [hek]

/-- Removal when the head entry carries another key. -/
theorem removeRef_cons_miss
    (e : (BlockID × BlockRefNonce) × BlockRefLocalStatus) (m : RefMap)
    (k : BlockID × BlockRefNonce) (hek : ¬e.1 = k) :
    removeRef (e :: m) k = e :: removeRef m k := by
  rw [removeRef, removeRef, List.filter_cons]
  simp [hek]

/-- Removing an absent key leaves the map unchanged. -/
theorem removeRef_not_mem (m : RefMap) (k : BlockID × BlockRefNonce)
    (hk : k ∉ m.map Prod.fst) : removeRef m k = m := by
  rw [removeRef, List.filter_eq_self]
  intro a ha
  simp only [ne_eq, decide_eq_true_eq]
  intro hak
  exact hk (by rw [← hak]; exact List.mem_map_of_mem Prod.fst ha)

/-- With unique keys, one removal deletes at most one entry. -/
theorem removeRef_length_ge (m : RefMap) (k : BlockID × BlockRefNonce)
    (h : (m.map Prod.fst).Nodup) :
    m.length ≤ (removeRef m k).length + 1 := by
  induction m with
  | nil => simp [removeRef]
  | cons e m ih =>
    simp only [List.map_cons, List.nodup_cons] at h
    by_cases hek : e.1 = k
    · have hrest : removeRef m k = m :=
        removeRef_not_mem m k (by rw [← hek]; exact h.1)
      rw [removeRef_cons_hit e m k hek, hrest]
      simp
    · rw [removeRef_cons_miss e m k hek]
      have := ih h.2
      simp only [List.length_cons]
      omega

/-- A whole batch of removals never grows the map. -/
theorem foldl_removeRef_length_le (batch : List UnrefPointer) :
    ∀ m : RefMap,
      (batch.foldl (fun m p => removeRef m (p.id, p.refNonce)) m).length ≤
        m.length := by
  induction batch with
  | nil =>
    intro m
    simp
  | cons p batch ih =>
    intro m
    simp only [List.foldl_cons]
    exact Nat.le_trans (ih _) (removeRef_length_le _ _)

/-- Key uniqueness survives a whole batch of removals. -/
theorem foldl_removeRef_keysNodup (batch : List UnrefPointer) :
    ∀ m : RefMap, (m.map Prod.fst).Nodup →
      ((batch.foldl (fun m p => removeRef m (p.id, p.refNonce)) m).map
        Prod.fst).Nodup := by
  induction batch with
  | nil =>
    intro m h
    simpa using h
  | cons p batch ih =>
    intro m h
    simp only [List.foldl_cons]
    exact ih _ (removeRef_keysNodup _ _ h)

/-- With unique keys, a batch deletes at most one entry per element. -/
theorem foldl_removeRef_length_ge (batch : List UnrefPointer) :
    ∀ m : RefMap, (m.map Prod.fst).Nodup →
      m.length ≤
        (batch.foldl (fun m p => removeRef m (p.id, p.refNonce)) m).length +
          batch.length := by
  induction batch with
  | nil =>
    intro m _
    simp
  | cons p batch ih =>
    intro m h
    simp only [List.foldl_cons, List.length_cons]
    have h1 := removeRef_length_ge m (p.id, p.refNonce) h
    have h2 := ih (removeRef m (p.id, p.refNonce))
      (removeRef_keysNodup m _ h)
    omega

/-- A filter that rejects a present element keeps strictly fewer
elements. -/
theorem length_filter_lt {α : Type} (l : List α) (p : α → Bool) (a : α)
    (ha : a ∈ l) (hpa : p a = false) : (l.filter p).length < l.length := by
  induction l with
  | nil => cases ha
  | cons b l ih =>
    rcases List.mem_cons.1 ha with rfl | ha'
    · rw [List.filter_cons, hpa]
      simp only [Bool.false_eq_true, if_false]
      exact Nat.lt_succ_of_le (List.length_filter_le _ _)
    · rw [List.filter_cons]
      cases hb : p b
      · simp only [Bool.false_eq_true, if_false]
        exact Nat.lt_succ_of_lt (ih ha')
      · simp only [if_true, List.length_cons]
        exact Nat.succ_lt_succ (ih ha')

/-- Removing a present key strictly shrinks the map. -/
theorem removeRef_length_lt (m : RefMap) (k : BlockID × BlockRefNonce)
    (hk : k ∈ m.map Prod.fst) : (removeRef m k).length < m.length := by
  obtain ⟨e, he, hek⟩ := List.mem_map.1 hk
  exact length_filter_lt m _ e he (by simp [hek])

/-- A batch holding a present key strictly shrinks the map. -/
theorem foldl_removeRef_length_lt (batch : List UnrefPointer) :
    ∀ m : RefMap,
      (∃ p ∈ batch, (p.id, p.refNonce) ∈ m.map Prod.fst) →
      (batch.foldl (fun m p => removeRef m (p.id, p.refNonce)) m).length <
        m.length := by
  induction batch with
  | nil =>
    rintro m ⟨p, hp, _⟩
    cases hp
  | cons q batch ih =>
    rintro m ⟨p, hp, hkey⟩
    simp only [List.foldl_cons]
    by_cases hq : (q.id, q.refNonce) ∈ m.map Prod.fst
    · exact Nat.lt_of_le_of_lt (foldl_removeRef_length_le batch _)
        (removeRef_length_lt m _ hq)
    · rw [removeRef_not_mem m _ hq]
      rcases List.mem_cons.1 hp with rfl | hp'
      · exact absurd hkey hq
      · exact ih m ⟨p, hp', hkey⟩

/-- The pointers still eligible after a run are the previously eligible
ones outside the processed batch. -/
theorem eligible_run_pending (a t now : Nat) (s : QRState) :
    eligiblePointers a now (reclamationRun a t now s).pending =
      (eligiblePointers a now s.pending).filter
        (fun p => p ∉ (eligiblePointers a now s.pending).take t) := by
  simp only [reclamationRun, eligiblePointers]
  rw [List.filter_filter, List.filter_filter]
  apply List.filter_congr
  intro p hp
  rw [Bool.and_comm]

/-- With a positive threshold, a run on a state with eligible pointers
strictly shrinks the eligible set. -/
theorem eligible_run_lt (a t now : Nat) (ht : 1 ≤ t) (s : QRState)
    (hne : eligiblePointers a now s.pending ≠ []) :
    (eligiblePointers a now (reclamationRun a t now s).pending).length <
      (eligiblePointers a now s.pending).length := by
  rw [eligible_run_pending]
  obtain ⟨h0, tl, hel⟩ := List.exists_cons_of_ne_nil hne
  rw [hel]
  apply length_filter_lt _ _ h0
  · simp
  · have hmem : h0 ∈ (h0 :: tl).take t := by
      rcases t with _ | t'
      · omega
      · simp [List.take_succ_cons]
    simp [hmem]

/-- Iterating runs empties the eligible set in finitely many steps. -/
theorem reclamation_eligible_empties (a t now : Nat) (ht : 1 ≤ t) :
    ∀ k (s : QRState), (eligiblePointers a now s.pending).length ≤ k →
      ∃ n, eligiblePointers a now
        ((reclamationRun a t now)^[n] s).pending = [] := by
  intro k
  induction k with
  | zero =>
    intro s hs
    exact ⟨0, by simpa using List.length_eq_zero.1 (Nat.le_zero.1 hs)⟩
  | succ k ih =>
    intro s hs
    by_cases hne : eligiblePointers a now s.pending = []
    · exact ⟨0, by simpa using hne⟩
    · obtain ⟨n, hn⟩ := ih (reclamationRun a t now s)
        (by have := eligible_run_lt a t now ht s hne; omega)
      exact ⟨n + 1, by rwa [Function.iterate_succ_apply]⟩

/-- C4: when every unreferenced pointer of the folder is younger than
`MinUnrefAge` at the current clock, a completed reclamation run leaves
the store's reference map exactly equal to its value before the run. -/
theorem quota_reclamation_age_gating (minUnrefAge threshold now : Nat)
    (s : QRState)
    (h : ∀ p ∈ s.pending, now < p.unrefTime + minUnrefAge) :
    (reclamationRun minUnrefAge threshold now s).store = s.store := by
  have he : eligiblePointers minUnrefAge now s.pending = [] := by
    rw [eligiblePointers, List.filter_eq_nil_iff]
    intro p hp
    simpa using h p hp
  simp [reclamationRun, he]

/-- Witness for C4: the sample folder at a clock younger than the age
threshold keeps its reference map unchanged. -/
theorem quota_reclamation_age_gating_witness :
    (reclamationRun 100 5 50 qrSample).store = qrSample.store :=
  quota_reclamation_age_gating 100 5 50 qrSample (by decide)

/-- C5: one reclamation run removes at most the per-run threshold of
reference entries; whenever eligible pointers remain (and their
references exist in the store), a run strictly decreases the total
reference count; and iterated runs reach a state with no eligible
pointers left. -/
theorem quota_reclamation_bounded_incremental
    (minUnrefAge threshold now : Nat) (s : QRState) :
    ((s.store.map Prod.fst).Nodup →
      totalBlockRefs s.store ≤
        totalBlockRefs (reclamationRun minUnrefAge threshold now s).store +
          threshold) ∧
    (1 ≤ threshold →
      eligiblePointers minUnrefAge now s.pending ≠ [] →
      (∀ p ∈ s.pending, (p.id, p.refNonce) ∈ s.store.map Prod.fst) →
      totalBlockRefs (reclamationRun minUnrefAge threshold now s).store <
        totalBlockRefs s.store) ∧
    (1 ≤ threshold →
      ∃ n, eligiblePointers minUnrefAge now
        ((reclamationRun minUnrefAge threshold now)^[n] s).pending = []) := by
  refine ⟨fun hnd => ?_, fun ht hne hkeys => ?_, fun ht => ?_⟩
  · simp only [reclamationRun, totalBlockRefs]
    have h1 := foldl_removeRef_length_ge
      ((eligiblePointers minUnrefAge now s.pending).take threshold)
      s.store hnd
    have h2 : ((eligiblePointers minUnrefAge now s.pending).take
        threshold).length ≤ threshold := List.length_take_le _ _
    omega
  · simp only [reclamationRun, totalBlockRefs]
    obtain ⟨h0, tl, hel⟩ := List.exists_cons_of_ne_nil hne
    rw [hel]
    apply foldl_removeRef_length_lt
    refine ⟨h0, ?_, ?_⟩
    · rcases threshold with _ | t'
      · omega
      · simp [List.take_succ_cons]
    · apply hkeys
      have hh : h0 ∈ eligiblePointers minUnrefAge now s.pending := by
        rw [hel]
        simp
      exact List.mem_of_mem_filter hh
  · exact reclamation_eligible_empties minUnrefAge threshold now ht
      (eligiblePointers minUnrefAge now s.pending).length s le_rfl

/-- Witness for C5: the sample folder at a late clock with per-run
threshold one loses at most one (and at least one) reference per run and
converges. -/
theorem quota_reclamation_bounded_incremental_witness :
    (totalBlockRefs qrSample.store ≤
      totalBlockRefs (reclamationRun 5 1 50 qrSample).store + 1) ∧
    (totalBlockRefs (reclamationRun 5 1 50 qrSample).store <
      totalBlockRefs qrSample.store) ∧
    (∃ n, eligiblePointers 5 50
      ((reclamationRun 5 1 50)^[n] qrSample).pending = []) :=
  ⟨(quota_reclamation_bounded_incremental 5 1 50 qrSample).1 (by decide),
    (quota_reclamation_bounded_incremental 5 1 50 qrSample).2.1
      (by decide) (by decide) (by decide),
    (quota_reclamation_bounded_incremental 5 1 50 qrSample).2.2 (by decide)⟩

/-- A block ID absent from every entry of a map has no references. -/
theorem refsOf_eq_zero (id : BlockID) (m : RefMap)
    (h : ∀ e ∈ m, e.1.1 ≠ id) : refsOf id m = 0 := by
  simp only [refsOf, List.length_eq_zero, List.filter_eq_nil_iff]
  intro e he
  simpa using h e he

/-- Two zero-nonce `Put` calls with distinct fresh block IDs add exactly
two reference entries, one per new block ID. -/
theorem twoWriteStore_spec (cfg₁ cfg₂ : Config) (md : RootMetadata)
    (id₁ id₂ : BlockID) (rbd₁ rbd₂ : ReadyBlockData) (pre : RefMap)
    (h12 : id₁ ≠ id₂)
    (hp1 : ∀ e ∈ pre, e.1.1 ≠ id₁) (hp2 : ∀ e ∈ pre, e.1.1 ≠ id₂) :
    totalBlockRefs (twoWriteStore cfg₁ cfg₂ md id₁ id₂ rbd₁ rbd₂ pre) =
      totalBlockRefs pre + 2 ∧
    refsOf id₁ (twoWriteStore cfg₁ cfg₂ md id₁ id₂ rbd₁ rbd₂ pre) = 1 ∧
    refsOf id₂ (twoWriteStore cfg₁ cfg₂ md id₁ id₂ rbd₁ rbd₂ pre) = 1 := by
  have hstore : twoWriteStore cfg₁ cfg₂ md id₁ id₂ rbd₁ rbd₂ pre =
      ((id₂, zeroBlockRefNonce), .liveBlockRef) ::
        ((id₁, zeroBlockRefNonce), .liveBlockRef) :: pre := by
    simp [twoWriteStore, BlockOpsStandard.Put, bserverApplyAll, bserverApply]
  have h1 := refsOf_eq_zero id₁ pre hp1
  have h2 := refsOf_eq_zero id₂ pre hp2
  simp only [refsOf] at h1 h2
  rw [hstore]
  refine ⟨by simp [totalBlockRefs], ?_, ?_⟩
  · simp [refsOf, List.filter_cons, Ne.symm h12, h1]
  · simp [refsOf, List.filter_cons, h12, h2]

/-- Two `Ready` calls on the same block whose random draws differ
produce distinct block IDs, provided key unmasking is injective in the
server half, the ciphertext determines the cipher key, and encoding and
content hashing are collision-free — the spec's model of the crypto
collaborators. -/
theorem ready_distinct_ids_core (cfg₁ cfg₂ : Config) (md : RootMetadata)
    (block : Block) (sh₁ sh₂ : BlockCryptKeyServerHalf)
    (hsh1 : cfg₁.crypto.makeRandomBlockCryptKeyServerHalf = .ok sh₁)
    (hcr2 : cfg₂.crypto =
      { cfg₁.crypto with makeRandomBlockCryptKeyServerHalf := .ok sh₂ })
    (hkm : cfg₂.keyManager = cfg₁.keyManager)
    (hcodec : cfg₂.codec = cfg₁.codec)
    (hshne : sh₁ ≠ sh₂)
    (hU : ∀ s s' k bk, cfg₁.crypto.unmaskBlockCryptKey s k = .ok bk →
      cfg₁.crypto.unmaskBlockCryptKey s' k = .ok bk → s = s')
    (hE : ∀ k k' r r', cfg₁.crypto.encryptBlock block k = .ok r →
      cfg₁.crypto.encryptBlock block k' = .ok r' → r.2 = r'.2 → k = k')
    (hC : ∀ e e' b, cfg₁.codec.encode e = .ok b →
      cfg₁.codec.encode e' = .ok b → e = e')
    (hH : ∀ b b' i, cfg₁.crypto.makePermanentBlockID b = .ok i →
      cfg₁.crypto.makePermanentBlockID b' = .ok i → b = b')
    (he₁ : (BlockOpsStandard.Ready cfg₁ md block).err = none)
    (he₂ : (BlockOpsStandard.Ready cfg₂ md block).err = none) :
    (BlockOpsStandard.Ready cfg₁ md block).id ≠
      (BlockOpsStandard.Ready cfg₂ md block).id := by
  obtain ⟨k₁, s₁, bk₁, ps₁, eb₁, buf₁, id₁, h11, h12, h13, h14, h15, h16,
    h17, h18⟩ := ready_ok_inversion cfg₁ md block he₁
  obtain ⟨k₂, s₂, bk₂, ps₂, eb₂, buf₂, id₂, h21, h22, h23, h24, h25, h26,
    h27, h28⟩ := ready_ok_inversion cfg₂ md block he₂
  have hs₁ : s₁ = sh₁ := by
    have h := hsh1.symm.trans h12
    exact (Except.ok.inj h).symm
  have hs₂ : s₂ = sh₂ := by
    rw [hcr2] at h22
    simp at h22
    exact h22.symm
  have hk : k₂ = k₁ := by
    rw [hkm] at h21
    exact Except.ok.inj (h21.symm.trans h11)
  rw [hcr2] at h23 h24 h27
  simp only at h23 h24 h27
  rw [hcodec] at h25
  rw [h18, h28]
  simp only
  intro heq
  subst heq
  have hbuf : buf₁ = buf₂ := hH buf₁ buf₂ id₁ h17 h27
  subst hbuf
  have heb : eb₁ = eb₂ := hC eb₁ eb₂ buf₁ h15 h25
  have hbk : bk₁ = bk₂ := by
    apply hE bk₁ bk₂ (ps₁, eb₁) (ps₂, eb₂) h14 h24
    simpa using heb
  apply hshne
  rw [← hs₁, ← hs₂]
  apply hU s₁ s₂ k₁ bk₁ h13
  rw [hk, ← hbk] at h23
  exact h23

/-- C8: two `Ready` calls on byte-identical plaintext under independently
drawn server-half fragments (all other collaborators shared) yield
distinct ciphertexts and hence distinct content-hash block IDs, so the
two writes are never short-circuited to a reused ID: their two zero-nonce
`Put` calls add exactly two new store entries, each with exactly one
reference. -/
theorem ready_fresh_server_half_no_dedup (cfg₁ cfg₂ : Config)
    (md : RootMetadata) (block : Block)
    (sh₁ sh₂ : BlockCryptKeyServerHalf)
    (hsh1 : cfg₁.crypto.makeRandomBlockCryptKeyServerHalf = .ok sh₁)
    (hcr2 : cfg₂.crypto =
      { cfg₁.crypto with makeRandomBlockCryptKeyServerHalf := .ok sh₂ })
    (hkm : cfg₂.keyManager = cfg₁.keyManager)
    (hcodec : cfg₂.codec = cfg₁.codec)
    (hshne : sh₁ ≠ sh₂)
    (hU : ∀ s s' k bk, cfg₁.crypto.unmaskBlockCryptKey s k = .ok bk →
      cfg₁.crypto.unmaskBlockCryptKey s' k = .ok bk → s = s')
    (hE : ∀ k k' r r', cfg₁.crypto.encryptBlock block k = .ok r →
      cfg₁.crypto.encryptBlock block k' = .ok r' → r.2 = r'.2 → k = k')
    (hC : ∀ e e' b, cfg₁.codec.encode e = .ok b →
      cfg₁.codec.encode e' = .ok b → e = e')
    (hH : ∀ b b' i, cfg₁.crypto.makePermanentBlockID b = .ok i →
      cfg₁.crypto.makePermanentBlockID b' = .ok i → b = b')
    (he₁ : (BlockOpsStandard.Ready cfg₁ md block).err = none)
    (he₂ : (BlockOpsStandard.Ready cfg₂ md block).err = none) :
    (BlockOpsStandard.Ready cfg₁ md block).id ≠
      (BlockOpsStandard.Ready cfg₂ md block).id ∧
    ∀ pre : RefMap,
      (∀ e ∈ pre, e.1.1 ≠ (BlockOpsStandard.Ready cfg₁ md block).id) →
      (∀ e ∈ pre, e.1.1 ≠ (BlockOpsStandard.Ready cfg₂ md block).id) →
      totalBlockRefs (twoWriteStore cfg₁ cfg₂ md
        (BlockOpsStandard.Ready cfg₁ md block).id
        (BlockOpsStandard.Ready cfg₂ md block).id
        (BlockOpsStandard.Ready cfg₁ md block).readyBlockData
        (BlockOpsStandard.Ready cfg₂ md block).readyBlockData pre) =
          totalBlockRefs pre + 2 ∧
      refsOf (BlockOpsStandard.Ready cfg₁ md block).id
        (twoWriteStore cfg₁ cfg₂ md
          (BlockOpsStandard.Ready cfg₁ md block).id
          (BlockOpsStandard.Ready cfg₂ md block).id
          (BlockOpsStandard.Ready cfg₁ md block).readyBlockData
          (BlockOpsStandard.Ready cfg₂ md block).readyBlockData pre) = 1 ∧
      refsOf (BlockOpsStandard.Ready cfg₂ md block).id
        (twoWriteStore cfg₁ cfg₂ md
          (BlockOpsStandard.Ready cfg₁ md block).id
          (BlockOpsStandard.Ready cfg₂ md block).id
          (BlockOpsStandard.Ready cfg₁ md block).readyBlockData
          (BlockOpsStandard.Ready cfg₂ md block).readyBlockData pre) = 1 := by
  have hne := ready_distinct_ids_core cfg₁ cfg₂ md block sh₁ sh₂ hsh1 hcr2
    hkm hcodec hshne hU hE hC hH he₁ he₂
  exact ⟨hne, fun pre hp1 hp2 =>
    twoWriteStore_spec cfg₁ cfg₂ md _ _ _ _ pre hne hp1 hp2⟩

/-- Witness for C8: the sample configurations differing only in the
random draw give distinct block IDs, and their two writes add exactly
two single-reference entries to an empty store. -/
theorem ready_fresh_server_half_no_dedup_witness :
    (BlockOpsStandard.Ready cfgOK mdSample blockSample).id ≠
      (BlockOpsStandard.Ready cfgOK2 mdSample blockSample).id ∧
    totalBlockRefs (twoWriteStore cfgOK cfgOK2 mdSample
      (BlockOpsStandard.Ready cfgOK mdSample blockSample).id
      (BlockOpsStandard.Ready cfgOK2 mdSample blockSample).id
      (BlockOpsStandard.Ready cfgOK mdSample blockSample).readyBlockData
      (BlockOpsStandard.Ready cfgOK2 mdSample blockSample).readyBlockData
      []) = 2 ∧
    refsOf (BlockOpsStandard.Ready cfgOK mdSample blockSample).id
      (twoWriteStore cfgOK cfgOK2 mdSample
        (BlockOpsStandard.Ready cfgOK mdSample blockSample).id
        (BlockOpsStandard.Ready cfgOK2 mdSample blockSample).id
        (BlockOpsStandard.Ready cfgOK mdSample blockSample).readyBlockData
        (BlockOpsStandard.Ready cfgOK2 mdSample blockSample).readyBlockData
        []) = 1 ∧
    refsOf (BlockOpsStandard.Ready cfgOK2 mdSample blockSample).id
      (twoWriteStore cfgOK cfgOK2 mdSample
        (BlockOpsStandard.Ready cfgOK mdSample blockSample).id
        (BlockOpsStandard.Ready cfgOK2 mdSample blockSample).id
        (BlockOpsStandard.Ready cfgOK mdSample blockSample).readyBlockData
        (BlockOpsStandard.Ready cfgOK2 mdSample blockSample).readyBlockData
        []) = 1 := by
  have h := ready_fresh_server_half_no_dedup cfgOK cfgOK2 mdSample
    blockSample ⟨3⟩ ⟨4⟩ rfl rfl rfl rfl (by decide)
    (by
      intro s s' k bk h h'
      have h2 := h.trans h'.symm
      simp [cfgOK, cryptoOK] at h2
      obtain ⟨sv⟩ := s
      obtain ⟨sv'⟩ := s'
      simp at h2 ⊢
      omega)
    (by
      intro k k' r r' h h' hsnd
      simp [cfgOK, cryptoOK] at h h'
      rw [← h, ← h'] at hsnd
      simp at hsnd
      obtain ⟨kv⟩ := k
      obtain ⟨kv'⟩ := k'
      simp at hsnd ⊢
      exact hsnd)
    (by
      intro e e' b h h'
      simp [cfgOK, codecOK] at h h'
      obtain ⟨ed⟩ := e
      obtain ⟨ed'⟩ := e'
      simp at h h' ⊢
      rw [h, h'])
    (by
      intro b b' i h h'
      simp [cfgOK, cryptoOK] at h h'
      rw [← h] at h'
      simpa using h'.symm)
    (by decide) (by decide)
  have h2 := h.2 [] (by simp) (by simp)
  exact ⟨h.1, by simpa [totalBlockRefs] using h2.1, h2.2.1, h2.2.2⟩

end Libkbfs
